import Mathlib

/-!
Verification of the easegress traffic-gateway core against its
natural-language specification.  Each section embeds one component of the
Go source (FaaS function FSM, MQTT session, HTTP proxy filter, HTTP server
runtime, UDP proxy session, HTTP statistics) as executable Lean
definitions and proves, or refutes, the corresponding spec claims.
-/

set_option maxRecDepth 4096

namespace Easegress

/-! ## FaaS function FSM — `pkg/object/function/spec/fsm.go`

States and events are strings in the Go source, so they are strings here;
an unknown event is any string outside `validEvent`. -/

namespace Fsm

/-- `FSM` from fsm.go: holds only the current state. -/
structure FSM where
  currentState : String
  deriving DecidableEq, Repr

/-- One row of the transition table (`transition` in fsm.go). -/
structure Transition where
  frm : String
  event : String
  target : String
  deriving DecidableEq, Repr

/-- State constants of fsm.go (note the source spells the terminal state
`"desctory"`). -/
def FailedState : String := "failed"

def InitialState : String := "initial"

def ActiveState : String := "active"

def InactiveState : String := "inactive"

def DesctroyState : String := "desctory"

/-- Event constants of fsm.go. -/
def CreateEvent : String := "create"

def StartEvent : String := "start"

def StopEvent : String := "stop"

def UpdateEvent : String := "update"

def DeleteEvent : String := "delete"

def ReadyEvent : String := "ready"

def PendingEvent : String := "pending"

def ErrorEvent : String := "error"

/-- `validState` of fsm.go, as the list of its keys. -/
def validState : List String :=
  [InitialState, ActiveState, InactiveState, FailedState, DesctroyState]

/-- `validEvent` of fsm.go, as the list of its keys. -/
def validEvent : List String :=
  [UpdateEvent, DeleteEvent, StopEvent, StartEvent, CreateEvent,
   PendingEvent, ErrorEvent, ReadyEvent]

/-- The transition `table` built in `init()` of fsm.go, in source order. -/
def table : List Transition :=
  [⟨InitialState, UpdateEvent, InitialState⟩,
   ⟨InitialState, DeleteEvent, DesctroyState⟩,
   ⟨InitialState, ReadyEvent, ActiveState⟩,
   ⟨InitialState, PendingEvent, InitialState⟩,
   ⟨InitialState, ErrorEvent, FailedState⟩,
   ⟨ActiveState, StopEvent, InactiveState⟩,
   ⟨ActiveState, ErrorEvent, FailedState⟩,
   ⟨ActiveState, ReadyEvent, ActiveState⟩,
   ⟨ActiveState, PendingEvent, FailedState⟩,
   ⟨InactiveState, UpdateEvent, InitialState⟩,
   ⟨InactiveState, StartEvent, InactiveState⟩,
   ⟨InactiveState, DeleteEvent, DesctroyState⟩,
   ⟨InactiveState, ReadyEvent, ActiveState⟩,
   ⟨InactiveState, PendingEvent, FailedState⟩,
   ⟨InactiveState, ErrorEvent, FailedState⟩,
   ⟨FailedState, DeleteEvent, DesctroyState⟩,
   ⟨FailedState, UpdateEvent, InitialState⟩,
   ⟨FailedState, ReadyEvent, InitialState⟩,
   ⟨FailedState, PendingEvent, FailedState⟩,
   ⟨FailedState, ErrorEvent, FailedState⟩]

/-- `transitions[event]`: the rows appended under one event key, in table
order (the Go `init` groups `table` by `Event`, preserving order). -/
def transitionsFor (event : String) : List Transition :=
  table.filter (fun t => t.event = event)

/-- `FSM.Next` of fsm.go.  The Go method mutates `fsm.currentState` and
returns an error; here it returns the (possibly unchanged) FSM together
with `none` on success or `some msg` on error. -/
def Next (fsm : FSM) (event : String) : FSM × Option String :=
  if ¬ validEvent.contains event then
    (fsm, some ("unknown event: " ++ event))
  else
    match (transitionsFor event).find? (fun v => fsm.currentState = v.frm) with
    | some v => ({ currentState := v.target }, none)
    | none =>
        (fsm, some ("invalid event: " ++ event ++ ", currentState: " ++ fsm.currentState))

/-- `InitFSM` of fsm.go: accepts only valid states. -/
def InitFSM (state : String) : Option FSM :=
  if validState.contains state then some { currentState := state } else none

end Fsm

end Easegress

namespace Easegress.Fsm

/-- **C1.** `FSM.Next` realises exactly the fixed transition table of
spec §4.7: every listed `(state, event)` pair moves to the listed target
with no error; an unknown event, or a valid event with no table entry for
the current state, returns an error and leaves the state unchanged; the
`desctory` (destroyed) state has no outgoing transition, so from it every
event errors and the state is unchanged. -/
theorem fsm_next_matches_table :
    (∀ t ∈ table, Next ⟨t.frm⟩ t.event = (⟨t.target⟩, none))
    ∧ (∀ e, ¬ validEvent.contains e → ∀ fsm : FSM, (Next fsm e).1 = fsm ∧ (Next fsm e).2.isSome)
    ∧ (∀ s e, validEvent.contains e →
        (table.find? (fun t => t.event = e ∧ s = t.frm) = none) →
        (Next ⟨s⟩ e).1 = ⟨s⟩ ∧ (Next ⟨s⟩ e).2.isSome)
    ∧ (∀ e, (Next ⟨DesctroyState⟩ e).1 = ⟨DesctroyState⟩ ∧ (Next ⟨DesctroyState⟩ e).2.isSome) := by
  refine ⟨?_, ?_, ?_, ?_⟩
  · intro t ht
    fin_cases ht <;> rfl
  · intro e he fsm
    simp only [Next, he, not_false_eq_true, if_pos]
    exact ⟨rfl, rfl⟩
  · intro s e he hnone
    have hfind : (transitionsFor e).find? (fun v => s = v.frm) = none := by
      rw [List.find?_eq_none] at hnone ⊢
      intro x hx
      have hx' := List.mem_filter.mp hx
      intro hcontra
      have : (fun t => decide (t.event = e ∧ s = t.frm)) x = true := by
        simp only [decide_eq_true_eq]
        exact ⟨by simpa using hx'.2, by simpa using hcontra⟩
      exact absurd (hnone x hx'.1) (by simp [this])
    simp only [Next, he, not_true_eq_false, if_neg, if_false]
    simp only [hfind]
    exact ⟨by trivial, by trivial⟩
  · intro e
    by_cases he : validEvent.contains e
    · have hfind : (transitionsFor e).find? (fun v => DesctroyState = v.frm) = none := by
        rw [List.find?_eq_none]
        intro x hx
        have hx' := List.mem_filter.mp hx
        have : x ∈ table := hx'.1
        fin_cases this <;> simp [DesctroyState, InitialState, ActiveState, InactiveState, FailedState]
      simp only [Next, he, not_true_eq_false, if_neg, if_false, hfind]
      exact ⟨by trivial, by trivial⟩
    · simp only [Next, he, not_false_eq_true, if_pos]
      exact ⟨rfl, rfl⟩

/-- Witness for `fsm_next_matches_table`: concrete instantiations of each
hypothesis-guarded conjunct. -/
theorem fsm_next_matches_table_witness :
    Next ⟨ActiveState⟩ StopEvent = (⟨InactiveState⟩, none)
    ∧ ((Next ⟨ActiveState⟩ "boom").1 = ⟨ActiveState⟩ ∧ (Next ⟨ActiveState⟩ "boom").2.isSome)
    ∧ ((Next ⟨ActiveState⟩ CreateEvent).1 = ⟨ActiveState⟩
        ∧ (Next ⟨ActiveState⟩ CreateEvent).2.isSome)
    ∧ ((Next ⟨DesctroyState⟩ DeleteEvent).1 = ⟨DesctroyState⟩
        ∧ (Next ⟨DesctroyState⟩ DeleteEvent).2.isSome) := by
  have h := fsm_next_matches_table
  refine ⟨h.1 ⟨ActiveState, StopEvent, InactiveState⟩ (by decide), ?_, ?_, h.2.2.2 DeleteEvent⟩
  · exact h.2.1 "boom" (by decide) ⟨ActiveState⟩
  · exact h.2.2.1 ActiveState CreateEvent (by decide) (by decide)

end Easegress.Fsm

namespace Easegress

/-! ## MQTT session — `pkg/object/mqttproxy/session.go`

`Session` carries the subscription map `info.Topics`, the qos-1 buffer
`pending : map[uint16]*Message` with its FIFO `pendingQueue`, and the
packet-id counter `nextID : uint16`.  Go maps are embedded as association
lists; packet ids are `Nat` reduced mod 2^16. -/

namespace Mqtt

/-- `Message` from session.go (payload kept directly; `B64Payload` is the
base64 round-trip of the payload, irrelevant to the claims). -/
structure Message where
  topic : String
  payload : String
  qos : Nat
  deriving DecidableEq, Repr

/-- A `packets.PublishPacket` as far as the session constructs one. -/
structure PublishPacket where
  qos : Nat
  topicName : String
  payload : String
  messageID : Nat
  deriving DecidableEq, Repr

/-- Association-list read of a Go map (`m[k]`). -/
def alGet (l : List (Nat × Message)) (k : Nat) : Option Message :=
  (l.find? (fun p => p.1 = k)).map (·.2)

/-- Association-list write of a Go map (`m[k] = v`). -/
def alSet (l : List (Nat × Message)) (k : Nat) (v : Message) : List (Nat × Message) :=
  (l.filter (fun p => ¬ p.1 = k)) ++ [(k, v)]

/-- Association-list delete of a Go map (`delete(m, k)`). -/
def alDel (l : List (Nat × Message)) (k : Nat) : List (Nat × Message) :=
  l.filter (fun p => ¬ p.1 = k)

/-- The key set of the embedded map. -/
def alKeys (l : List (Nat × Message)) : List Nat :=
  l.map (·.1)

/-- Subscription lookup (`s.info.Topics[topic]`). -/
def topicsGet (l : List (String × Nat)) (t : String) : Option Nat :=
  (l.find? (fun p => p.1 = t)).map (·.2)

/-- `Session` from session.go, restricted to the fields the claims touch;
`connected` stands for `s.broker.getClient(s.info.ClientID) != nil`. -/
structure Session where
  topics : List (String × Nat)
  pending : List (Nat × Message)
  pendingQueue : List Nat
  nextID : Nat
  deriving DecidableEq, Repr

/-- `getMsg` from session.go. -/
def getMsg (topic : String) (payload : String) (qos : Nat) : Message :=
  { topic := topic, payload := payload, qos := qos }

/-- `Session.getPacketFromMsg`: builds the packet with the current
`nextID` and increments the counter (uint16 overflow is deliberate in the
source, hence mod 2^16). -/
def getPacketFromMsg (s : Session) (topic : String) (payload : String) (qos : Nat) :
    PublishPacket × Session :=
  ({ qos := qos, topicName := topic, payload := payload, messageID := s.nextID },
   { s with nextID := (s.nextID + 1) % 65536 })

/-- `Session.publish` from session.go.  Returns the updated session and
the list of PUBLISH packets handed to `client.writePacket` (empty when
nothing is dispatched).  Mirrors the source: unsubscribed topic or stored
qos below the delivery qos → silent return; disconnected client → error
log only; otherwise a packet is built (consuming a packet id), sent for
qos 0, stored in `pending`/`pendingQueue` and sent for qos 1, and dropped
with an error log for any other qos. -/
def publish (s : Session) (connected : Bool) (topic : String) (payload : String)
    (qos : Nat) : Session × List PublishPacket :=
  match topicsGet s.topics topic with
  | none => (s, [])
  | some q =>
    if q < qos then (s, [])
    else if ¬ connected then (s, [])
    else
      let (p, s1) := getPacketFromMsg s topic payload qos
      if qos = 0 then (s1, [p])
      else if qos = 1 then
        let msg := getMsg topic payload qos
        ({ s1 with pending := alSet s1.pending p.messageID msg,
                   pendingQueue := s1.pendingQueue ++ [p.messageID] }, [p])
      else (s1, [])

/-- `Session.puback`: `delete(s.pending, p.MessageID)`; the queue is not
touched. -/
def puback (s : Session) (messageID : Nat) : Session :=
  { s with pending := alDel s.pending messageID }

/-- The scan loop of `Session.doResend`: find the first queued id still
present in `pending`; the queue is truncated to the suffix starting at
that id (`s.pendingQueue = s.pendingQueue[i:]`). -/
def resendScan (queue : List Nat) (pending : List (Nat × Message)) :
    Option (List Nat × Nat × Message) :=
  match queue with
  | [] => none
  | idx :: rest =>
    match alGet pending idx with
    | some msg => some (idx :: rest, idx, msg)
    | none => resendScan rest pending

/-- `Session.doResend` from session.go: with no pending message the queue
is reset to empty; otherwise the head of the truncated queue is resent
(once) when the client is connected. -/
def doResend (s : Session) (connected : Bool) : Session × List PublishPacket :=
  if s.pending = [] then ({ s with pendingQueue := [] }, [])
  else
    match resendScan s.pendingQueue s.pending with
    | none => (s, [])
    | some (suffix, idx, msg) =>
      let p : PublishPacket :=
        { qos := msg.qos, topicName := msg.topic, payload := msg.payload, messageID := idx }
      ({ s with pendingQueue := suffix }, if connected then [p] else [])

/-- One session operation of the C2 claim: a publish, a puback, or one
tick of the background resend loop. -/
inductive SessionOp where
  | pub (connected : Bool) (topic : String) (payload : String) (qos : Nat)
  | ack (messageID : Nat)
  | resend (connected : Bool)
  deriving DecidableEq, Repr

/-- Apply one operation, discarding the dispatched packets. -/
def applyOp (s : Session) (op : SessionOp) : Session :=
  match op with
  | .pub c t pl q => (publish s c t pl q).1
  | .ack id => puback s id
  | .resend c => (doResend s c).1

/-- Every pending key is present in `pendingQueue` (decidable form). -/
def pendingKeysInQueue (s : Session) : Prop :=
  ∀ k ∈ alKeys s.pending, k ∈ s.pendingQueue

instance (s : Session) : Decidable (pendingKeysInQueue s) := by
  unfold pendingKeysInQueue; infer_instance

/-- The session used for the C2 counterexample: subscribed to `"t"` with
qos 1, nothing pending yet. -/
def exSession : Session :=
  { topics := [("t", 1)], pending := [], pendingQueue := [], nextID := 0 }

end Mqtt

end Easegress

namespace Easegress.Mqtt

theorem alGet_isSome_iff (l : List (Nat × Message)) (k : Nat) :
    (alGet l k).isSome ↔ k ∈ alKeys l := by
  unfold alGet alKeys
  cases hf : l.find? (fun p => p.1 = k) with
  | none =>
    rw [List.find?_eq_none] at hf
    simp only [Option.map_none', Option.isSome_none, Bool.false_eq_true, false_iff]
    intro hk
    obtain ⟨p, hp, hk⟩ := List.mem_map.mp hk
    exact absurd (by simpa using hk) (by simpa using hf p hp)
  | some p =>
    have hmem := List.mem_of_find?_eq_some hf
    have hkey : p.1 = k := by simpa using List.find?_some hf
    simp only [Option.map_some', Option.isSome_some, true_iff]
    exact List.mem_map.mpr ⟨p, hmem, hkey⟩

theorem alKeys_alSet_subset {l : List (Nat × Message)} {i k : Nat} {v : Message}
    (h : k ∈ alKeys (alSet l i v)) : k = i ∨ k ∈ alKeys l := by
  simp only [alKeys, alSet, List.map_append, List.mem_append] at h
  rcases h with h | h
  · right
    obtain ⟨p, hp, hk⟩ := List.mem_map.mp h
    exact List.mem_map.mpr ⟨p, List.mem_of_mem_filter hp, hk⟩
  · left
    simpa using h

theorem alKeys_alDel_subset {l : List (Nat × Message)} {i k : Nat}
    (h : k ∈ alKeys (alDel l i)) : k ∈ alKeys l := by
  simp only [alKeys, alDel] at h ⊢
  obtain ⟨p, hp, hk⟩ := List.mem_map.mp h
  exact List.mem_map.mpr ⟨p, List.mem_of_mem_filter hp, hk⟩

theorem resendScan_mem {queue : List Nat} {pending : List (Nat × Message)}
    {suffix : List Nat} {idx : Nat} {msg : Message}
    (hscan : resendScan queue pending = some (suffix, idx, msg))
    {k : Nat} (hk : k ∈ alKeys pending) (hq : k ∈ queue) : k ∈ suffix := by
  induction queue with
  | nil => cases hq
  | cons h0 rest ih =>
    rw [resendScan] at hscan
    cases hget : alGet pending h0 with
    | some m =>
      rw [hget] at hscan
      obtain ⟨h1, _, _⟩ := by simpa using hscan
      rw [← h1]
      exact hq
    | none =>
      rw [hget] at hscan
      rcases List.mem_cons.mp hq with rfl | hq'
      · exfalso
        have : (alGet pending k).isSome := (alGet_isSome_iff pending k).mpr hk
        rw [hget] at this
        cases this
      · exact ih hscan hq'

/-- **C2 counterexample.** The claimed invariant "the keys of `pending`
are exactly the packet ids in `pendingQueue`" fails after the operation
sequence publish(qos 1) then puback: `puback` deletes the id from
`pending` but never removes it from `pendingQueue`, so id 0 is still
queued while no longer pending. -/
theorem session_pending_exact_counterexample :
    0 ∈ (puback (publish exSession true "t" "x" 1).1 0).pendingQueue
    ∧ 0 ∉ alKeys (puback (publish exSession true "t" "x" 1).1 0).pending := by
  decide

/-- **C2 (amended).** The invariant that actually holds: after any
sequence of publish, puback and background-resend operations, every key
of `pending` is contained in `pendingQueue` (the queue may additionally
retain already-acknowledged ids until the resend loop prunes them).  The
freshly initialised session satisfies the invariant and every operation
preserves it. -/
theorem session_pending_subset_queue :
    pendingKeysInQueue exSession
    ∧ ∀ (s : Session) (op : SessionOp),
        pendingKeysInQueue s → pendingKeysInQueue (applyOp s op) := by
  refine ⟨by decide, ?_⟩
  intro s op hinv
  cases op with
  | pub connected topic payload qos =>
    show pendingKeysInQueue (publish s connected topic payload qos).1
    unfold publish
    cases htopic : topicsGet s.topics topic with
    | none => exact hinv
    | some q =>
      simp only []
      split
      · exact hinv
      · split
        · exact hinv
        · simp only [getPacketFromMsg]
          split
          · exact hinv
          · split
            · intro k hk
              rcases alKeys_alSet_subset hk with rfl | hk'
              · simp
              · exact List.mem_append.mpr (Or.inl (hinv k hk'))
            · exact hinv
  | ack id =>
    intro k hk
    exact hinv k (alKeys_alDel_subset hk)
  | resend connected =>
    show pendingKeysInQueue (doResend s connected).1
    unfold doResend
    split
    · rename_i hpend
      intro k hk
      rw [hpend] at hk
      cases hk
    · cases hscan : resendScan s.pendingQueue s.pending with
      | none => exact hinv
      | some res =>
        obtain ⟨suffix, idx, msg⟩ := res
        simp only [hscan]
        intro k hk
        exact resendScan_mem hscan hk (hinv k hk)

/-- Witness for `session_pending_subset_queue`: the preserved invariant,
instantiated on the concrete post-publish session and a puback. -/
theorem session_pending_subset_queue_witness :
    pendingKeysInQueue (publish exSession true "t" "x" 1).1
    ∧ pendingKeysInQueue (applyOp (publish exSession true "t" "x" 1).1 (.ack 0)) := by
  have h1 : pendingKeysInQueue (publish exSession true "t" "x" 1).1 := by decide
  exact ⟨h1, session_pending_subset_queue.2 _ (.ack 0) h1⟩

end Easegress.Mqtt

namespace Easegress.Mqtt

/-- **C3.** `Session.publish` dispatches a PUBLISH packet exactly when the
topic is subscribed with stored qos at least the delivery qos, the client
is connected, and the qos is 0 or 1 (qos 2 is unsupported and only logs an
error).  Qos 0 stores nothing; qos 1 additionally records the message in
`pending` under the assigned packet id and appends that id to
`pendingQueue`; qos 2 sends and stores nothing. -/
theorem publish_dispatches_iff (s : Session) (connected : Bool)
    (topic payload : String) (qos : Nat) :
    ((publish s connected topic payload qos).2 ≠ [] ↔
        (∃ q, topicsGet s.topics topic = some q ∧ qos ≤ q) ∧ connected = true ∧ qos ≤ 1)
    ∧ (qos = 0 →
        (publish s connected topic payload qos).1.pending = s.pending
        ∧ (publish s connected topic payload qos).1.pendingQueue = s.pendingQueue)
    ∧ (qos = 1 → (publish s connected topic payload qos).2 ≠ [] →
        (publish s connected topic payload qos).1.pending
            = alSet s.pending s.nextID (getMsg topic payload 1)
        ∧ (publish s connected topic payload qos).1.pendingQueue
            = s.pendingQueue ++ [s.nextID]
        ∧ (publish s connected topic payload qos).2
            = [{ qos := 1, topicName := topic, payload := payload, messageID := s.nextID }])
    ∧ (2 ≤ qos →
        (publish s connected topic payload qos).2 = []
        ∧ (publish s connected topic payload qos).1.pending = s.pending
        ∧ (publish s connected topic payload qos).1.pendingQueue = s.pendingQueue) := by
  cases htopic : topicsGet s.topics topic with
  | none =>
    refine ⟨by simp [publish, htopic], by simp [publish, htopic],
      by simp [publish, htopic], by simp [publish, htopic]⟩
  | some q =>
    by_cases hq : q < qos
    · refine ⟨?_, by simp [publish, htopic, hq], by simp [publish, htopic, hq],
        by simp [publish, htopic, hq]⟩
      simp only [publish, htopic, if_pos hq, ne_eq, not_true_eq_false, false_iff, not_and]
      rintro ⟨q', hq', hqle⟩ _
      injection hq' with h
      omega
    · cases connected with
      | false =>
        refine ⟨by simp [publish, htopic, hq], by simp [publish, htopic, hq],
          by simp [publish, htopic, hq], by simp [publish, htopic, hq]⟩
      | true =>
        by_cases h0 : qos = 0
        · subst h0
          refine ⟨?_, by simp [publish, htopic, hq, getPacketFromMsg], by simp, by omega⟩
          simp only [publish, htopic, hq, getPacketFromMsg]
          simp only [ne_eq, List.cons_ne_nil, not_false_eq_true, true_iff, if_neg hq]
          simp
        · by_cases h1 : qos = 1
          · subst h1
            refine ⟨?_, by omega, ?_, by omega⟩
            · simp only [publish, htopic, if_neg hq, getPacketFromMsg]
              simp only [ne_eq]
              simp [h0]
              omega
            · intro _ _
              simp only [publish, htopic, if_neg hq, getPacketFromMsg, getMsg]
              simp [h0]
          · have h2 : 2 ≤ qos := by omega
            refine ⟨?_, by omega, by omega, ?_⟩
            · simp only [publish, htopic, if_neg hq, getPacketFromMsg]
              simp [h0, h1]
              omega
            · intro _
              simp only [publish, htopic, if_neg hq, getPacketFromMsg]
              simp [h0, h1]

/-- Witness for `publish_dispatches_iff`: a concrete qos-1 publish on a
matching subscription stores the message and queues the packet id. -/
theorem publish_dispatches_iff_witness :
    (publish exSession true "t" "x" 1).2 ≠ []
    ∧ (publish exSession true "t" "x" 1).1.pending
        = alSet exSession.pending exSession.nextID (getMsg "t" "x" 1)
    ∧ (publish exSession true "t" "x" 1).1.pendingQueue
        = exSession.pendingQueue ++ [exSession.nextID] := by
  have h := publish_dispatches_iff exSession true "t" "x" 1
  have hne : (publish exSession true "t" "x" 1).2 ≠ [] := by decide
  have hs := h.2.2.1 rfl hne
  exact ⟨hne, hs.1, hs.2.1⟩

end Easegress.Mqtt

namespace Easegress

/-! ## HTTP Proxy filter — `pkg/filters/proxy/proxy.go`

`Proxy.Handle` picks the first candidate pool whose filter matches, else
the main pool, and optionally fires the mirror pool.  `Spec.Validate`
enforces exactly one filter-less (main) pool and the mirror-pool rules.
Requests and pool behaviour are abstract: a pool carries its match
predicate and its handle function. -/

namespace Proxy

/-- An HTTP request as far as pool filters inspect it. -/
structure Request where
  method : String
  path : String
  headers : List (String × String)

/-- A built `ServerPool` inside the running Proxy filter: its filter's
match predicate and its `handle` behaviour (the Bool argument is the
`mirror` flag of `ServerPool.handle`). -/
structure ServerPool where
  filterMatch : Request → Bool
  handle : Request → Bool → String

/-- The running `Proxy` filter: main pool, candidate pools in declared
order, optional mirror pool. -/
structure ProxyFilter where
  mainPool : ServerPool
  candidatePools : List ServerPool
  mirrorPool : Option ServerPool

/-- The candidate-selection loop of `Proxy.Handle`:
`sp := mainPool; for v in candidatePools { if match { sp = v; break } }`. -/
def selectPool (pools : List ServerPool) (main : ServerPool) (req : Request) : ServerPool :=
  match pools with
  | [] => main
  | v :: rest => if v.filterMatch req then v else selectPool rest main req

/-- `Proxy.Handle` from proxy.go.  Returns the result string together
with the mirror dispatch (the `go p.mirrorPool.handle(ctx, true)` call,
whose result the source discards). -/
def Handle (p : ProxyFilter) (req : Request) : String × Option String :=
  let mirrored :=
    match p.mirrorPool with
    | some m => if m.filterMatch req then some (m.handle req true) else none
    | none => none
  (selectPool p.candidatePools p.mainPool req |>.handle req false, mirrored)

/-- A `ServerPoolSpec` as far as `Spec.Validate` inspects it.  The body of
`ServerPoolSpec.Validate` is not part of the sources; `validateOk`
abstracts its verdict.  Modelled from the spec: §4.3/§4.4 only constrain
the filter expression and memory cache of the pools, so per-pool
validation is an opaque pass/fail flag here. -/
structure ServerPoolSpec where
  hasFilter : Bool
  hasMemoryCache : Bool
  validateOk : Bool
  deriving DecidableEq, Repr

/-- The Proxy `Spec` fields consulted by `Validate`. -/
structure PSpec where
  pools : List ServerPoolSpec
  mirrorPool : Option ServerPoolSpec
  deriving DecidableEq, Repr

/-- The pool loop of `Spec.Validate`: counts filter-less pools and fails
at the first pool whose own validation fails. -/
def validatePools (pools : List ServerPoolSpec) (numMainPool : Nat) : String ⊕ Nat :=
  match pools with
  | [] => .inr numMainPool
  | pool :: rest =>
    let c := if pool.hasFilter = false then numMainPool + 1 else numMainPool
    if pool.validateOk = false then .inl "pool invalid" else validatePools rest c

/-- `Spec.Validate` from proxy.go: `none` means the nil error. -/
def specValidate (s : PSpec) : Option String :=
  match validatePools s.pools 0 with
  | .inl e => some e
  | .inr numMainPool =>
    if numMainPool ≠ 1 then some "one and only one mainPool is required"
    else
      match s.mirrorPool with
      | none => none
      | some mp =>
        if mp.hasFilter = false then some "filter of mirrorPool is required"
        else if mp.hasMemoryCache = true then some "memoryCache must be empty in mirrorPool"
        else none

/-- Number of pools without a filter expression (the spec-side count). -/
def countFilterless (pools : List ServerPoolSpec) : Nat :=
  (pools.filter (fun p => p.hasFilter = false)).length

end Proxy

end Easegress

namespace Easegress.Proxy

theorem selectPool_eq_find (pools : List ServerPool) (main : ServerPool) (req : Request) :
    selectPool pools main req = (pools.find? (fun v => v.filterMatch req)).getD main := by
  induction pools with
  | nil => rfl
  | cons v rest ih =>
    rw [selectPool, List.find?]
    by_cases hm : v.filterMatch req
    · simp [hm]
    · simp only [Bool.not_eq_true] at hm
      simp [hm, ih]

/-- **C4.** `Proxy.Handle` returns the result of the first candidate pool
(in declared order) whose filter matches, or of the main pool when none
matches; the mirror pool is dispatched exactly when it is configured and
its filter matches; and the returned result never depends on the mirror
pool (removing the mirror pool leaves the result unchanged). -/
theorem handle_first_candidate_else_main (p : ProxyFilter) (req : Request) :
    (Handle p req).1
        = ((p.candidatePools.find? (fun v => v.filterMatch req)).getD p.mainPool).handle req false
    ∧ ((Handle p req).2.isSome ↔
        ∃ m, p.mirrorPool = some m ∧ m.filterMatch req = true)
    ∧ (Handle { p with mirrorPool := none } req).1 = (Handle p req).1 := by
  refine ⟨?_, ?_, rfl⟩
  · show (selectPool p.candidatePools p.mainPool req).handle req false = _
    rw [selectPool_eq_find]
  · unfold Handle
    cases hm : p.mirrorPool with
    | none => simp
    | some m =>
      by_cases hmatch : m.filterMatch req
      · simp [hmatch]
      · simp only [Bool.not_eq_true] at hmatch
        simp [hmatch]

theorem validatePools_count {pools : List ServerPoolSpec} :
    ∀ {acc n : Nat}, validatePools pools acc = .inr n → n = acc + countFilterless pools := by
  induction pools with
  | nil =>
    intro acc n h
    simp only [validatePools, Sum.inr.injEq] at h
    simp [countFilterless, ← h]
  | cons pool rest ih =>
    intro acc n h
    rw [validatePools] at h
    cases hv : pool.validateOk with
    | false => simp [hv] at h
    | true =>
      simp only [hv, Bool.true_eq_false, if_neg, if_false] at h
      cases hf : pool.hasFilter with
      | false =>
        simp only [hf, if_pos rfl] at h
        have := ih h
        simp [countFilterless, List.filter_cons, hf] at this ⊢
        omega
      | true =>
        simp only [hf, Bool.true_eq_false, if_neg, if_false] at h
        have := ih h
        simp [countFilterless, List.filter_cons, hf] at this ⊢
        omega

/-- **C5.** `Spec.Validate` returns nil only when exactly one pool has no
filter expression; a filter-less-pool count different from one always
yields an error; and a configured mirror pool lacking a filter expression
or declaring a memory cache always yields an error. -/
theorem spec_validate_main_mirror (s : PSpec) :
    (specValidate s = none → countFilterless s.pools = 1)
    ∧ (countFilterless s.pools ≠ 1 → (specValidate s).isSome)
    ∧ (∀ mp, s.mirrorPool = some mp →
        (mp.hasFilter = false ∨ mp.hasMemoryCache = true) → (specValidate s).isSome) := by
  refine ⟨?_, ?_, ?_⟩
  · intro h
    unfold specValidate at h
    cases hv : validatePools s.pools 0 with
    | inl e => rw [hv] at h; cases h
    | inr n =>
      rw [hv] at h
      have hn := validatePools_count hv
      by_cases h1 : n ≠ 1
      · simp [h1] at h
      · push_neg at h1
        omega
  · intro h
    unfold specValidate
    cases hv : validatePools s.pools 0 with
    | inl e => simp
    | inr n =>
      have hn := validatePools_count hv
      have : n ≠ 1 := by omega
      simp [this]
  · intro mp hmp hbad
    unfold specValidate
    cases hv : validatePools s.pools 0 with
    | inl e => simp
    | inr n =>
      by_cases h1 : n ≠ 1
      · simp [h1]
      · push_neg at h1
        subst h1
        rcases hbad with hf | hc
        · simp [hmp, hf]
        · by_cases hf : mp.hasFilter
          · simp [hmp, hf, hc]
          · simp only [Bool.not_eq_true] at hf
            simp [hmp, hf]

/-- Witness for `spec_validate_main_mirror`: a two-pool spec with no
filter-less pool is rejected, and a mirror pool with a memory cache is
rejected. -/
theorem spec_validate_main_mirror_witness :
    (countFilterless [⟨true, false, true⟩, ⟨true, false, true⟩] ≠ 1
      ∧ (specValidate ⟨[⟨true, false, true⟩, ⟨true, false, true⟩], none⟩).isSome)
    ∧ ((specValidate ⟨[⟨false, false, true⟩], some ⟨true, true, true⟩⟩).isSome) := by
  constructor
  · exact ⟨by decide, (spec_validate_main_mirror ⟨[⟨true, false, true⟩, ⟨true, false, true⟩], none⟩).2.1 (by decide)⟩
  · exact (spec_validate_main_mirror ⟨[⟨false, false, true⟩], some ⟨true, true, true⟩⟩).2.2
      ⟨true, true, true⟩ rfl (Or.inr rfl)

end Easegress.Proxy

namespace Easegress

/-! ## HTTPServer runtime — `pkg/object/httpserver` (src/unnamed/part_002)

`runtime.reload` swaps the spec and mux rules and restarts the listener
only when `needRestartServer` reports a difference outside the six
restart-exempt fields.  `startServer` increments `startNum`;
`handleEventServeFailed` ignores stale events.  The `Spec` struct itself
is not under src/; its fields are modelled from spec §6 (`port`, `https`,
`http3`, `keepAlive`, `keepAliveTimeout`, `maxConnections`, `certBase64`,
`keyBase64`, `rules`) plus the fields `needRestartServer` zeroes
(`cacheSize`, `xForwardedFor`, `tracing`, `ipFilter`). -/

namespace HttpServer

/-- Modelled from the spec: the `HTTPServer` Spec fields (spec §6 and the
fields named in `runtime.needRestartServer`); the spec.go file carrying
the struct is not part of the sources.  Pointer-typed fields (`Tracing`,
`IPFilter`) are options; `Rules` is a slice. -/
structure HSpec where
  port : Nat
  https : Bool
  http3 : Bool
  keepAlive : Bool
  keepAliveTimeout : String
  certBase64 : String
  keyBase64 : String
  maxConnections : Nat
  cacheSize : Nat
  xForwardedFor : Bool
  tracing : Option String
  ipFilter : Option String
  rules : List String
  deriving DecidableEq, Repr

/-- The zeroing step of `needRestartServer`: both copies get the
restart-exempt fields reset before comparison. -/
def zeroRestartExempt (s : HSpec) : HSpec :=
  { s with maxConnections := 0, cacheSize := 0, xForwardedFor := false,
           tracing := none, ipFilter := none, rules := [] }

/-- `runtime.needRestartServer`: `!reflect.DeepEqual(x, y)` on the zeroed
copies. -/
def needRestartServer (cur next : HSpec) : Bool :=
  decide (¬ zeroRestartExempt cur = zeroRestartExempt next)

/-- The externally visible side effects of `runtime.reload`. -/
inductive RAction where
  | muxReload
  | setMaxConnections (n : Nat)
  | closeServer
  | startServer
  deriving DecidableEq, Repr

/-- The runtime state `reload` touches: the current object spec (nil
before the first load) and whether the limit listener exists yet. -/
structure RRuntime where
  spec : Option HSpec
  hasLimitListener : Bool
  deriving DecidableEq, Repr

/-- `runtime.reload` from part_002: always reloads the mux, updates the
connection cap when the limit listener exists, then starts the server on
first load, or stop-then-starts it only when `needRestartServer` says so,
otherwise just swaps the spec in place. -/
def reload (r : RRuntime) (next : HSpec) : RRuntime × List RAction :=
  let pre := [RAction.muxReload]
      ++ (if r.hasLimitListener then [RAction.setMaxConnections next.maxConnections] else [])
  match r.spec with
  | none => ({ r with spec := some next }, pre ++ [RAction.startServer])
  | some cur =>
    if needRestartServer cur next then
      ({ r with spec := some next }, pre ++ [RAction.closeServer, RAction.startServer])
    else
      ({ r with spec := some next }, pre)

/-- The spec-side restart condition: the two specs differ in some field
other than the six restart-exempt ones. -/
def restartRelevantDiffer (cur next : HSpec) : Prop :=
  cur.port ≠ next.port ∨ cur.https ≠ next.https ∨ cur.http3 ≠ next.http3
  ∨ cur.keepAlive ≠ next.keepAlive ∨ cur.keepAliveTimeout ≠ next.keepAliveTimeout
  ∨ cur.certBase64 ≠ next.certBase64 ∨ cur.keyBase64 ≠ next.keyBase64

/-- Runtime states of the listener FSM (part_002 constants). -/
inductive StateType where
  | stateNil
  | stateFailed
  | stateRunning
  | stateClosed
  deriving DecidableEq, Repr

/-- The status fields `startServer`/`handleEventServeFailed` touch.
`startNum` is the uint64 restart counter (a pure increment counter, never
near 2^64, kept as `Nat`). -/
structure SRuntime where
  startNum : Nat
  state : StateType
  err : String
  deriving DecidableEq, Repr

/-- `runtime.startServer`: increments `startNum`, enters `running` with a
nil error, then (HTTP 1/2 path) falls to `failed` when the listen call
errors; `listenErr` stands for the result of `gnet.Listen`. -/
def startServer (r : SRuntime) (listenErr : Option String) : SRuntime :=
  let r1 : SRuntime := { r with startNum := r.startNum + 1,
                                state := .stateRunning, err := "" }
  match listenErr with
  | some e => { r1 with state := .stateFailed, err := e }
  | none => r1

/-- `runtime.handleEventServeFailed`: a stale event (carrying a lower
`startNum`) is dropped; otherwise the runtime fails with the event's
error. -/
def handleEventServeFailed (r : SRuntime) (eStartNum : Nat) (eErr : String) : SRuntime :=
  if r.startNum > eStartNum then r
  else { r with state := .stateFailed, err := eErr }

end HttpServer

end Easegress

namespace Easegress.HttpServer

theorem needRestartServer_iff (cur next : HSpec) :
    needRestartServer cur next = true ↔ restartRelevantDiffer cur next := by
  cases cur; cases next
  simp only [needRestartServer, zeroRestartExempt, restartRelevantDiffer, HSpec.mk.injEq,
    decide_eq_true_eq, and_true, ne_eq]
  tauto

/-- **C6.** For a running runtime (`r.spec = some cur`), `reload(next)`
emits a closeServer/startServer pair exactly when `next` differs from
`cur` in a field other than the six restart-exempt ones
(rules, maxConnections, cacheSize, xForwardedFor, tracing, ipFilter); in
particular reloading the identical spec emits only the in-place mux
reload (plus the connection-cap update when the limit listener exists)
and swaps the stored spec. -/
theorem reload_restarts_iff (r : RRuntime) (cur next : HSpec) (h : r.spec = some cur) :
    ((RAction.closeServer ∈ (reload r next).2 ∨ RAction.startServer ∈ (reload r next).2)
        ↔ restartRelevantDiffer cur next)
    ∧ (next = cur →
        (reload r next).2
            = [RAction.muxReload]
              ++ (if r.hasLimitListener then [RAction.setMaxConnections next.maxConnections]
                  else [])
        ∧ (reload r next).1.spec = some next) := by
  constructor
  · rw [← needRestartServer_iff]
    simp only [reload, h]
    cases hneed : needRestartServer cur next with
    | true =>
      simp only [hneed]
      simp
    | false =>
      simp only [hneed, Bool.false_eq_true, if_false, iff_false, not_or]
      constructor <;>
      · intro hm
        simp only [List.mem_append, List.mem_singleton] at hm
        rcases hm with hm | hm
        · exact RAction.noConfusion hm
        · by_cases hl : r.hasLimitListener = true
          · rw [if_pos hl] at hm
            exact RAction.noConfusion (List.mem_singleton.mp hm)
          · rw [if_neg hl] at hm
            cases hm
  · intro hsame
    have hneed : needRestartServer cur next = false := by
      rw [Bool.eq_false_iff]
      intro hcontra
      have hd := (needRestartServer_iff cur next).mp hcontra
      rw [hsame] at hd
      simp [restartRelevantDiffer] at hd
    simp only [reload, h, hneed, Bool.false_eq_true, if_false]
    exact ⟨by trivial, by trivial⟩

/-- Witness for `reload_restarts_iff`: reloading a runtime running on a
concrete spec with itself emits no close/start action. -/
theorem reload_restarts_iff_witness :
    (reload ⟨some ⟨80, false, false, true, "60s", "", "", 10240, 0, false, none, none, []⟩, true⟩
        ⟨80, false, false, true, "60s", "", "", 10240, 0, false, none, none, []⟩).2
      = [RAction.muxReload, RAction.setMaxConnections 10240] := by
  have h := (reload_restarts_iff
      ⟨some ⟨80, false, false, true, "60s", "", "", 10240, 0, false, none, none, []⟩, true⟩
      ⟨80, false, false, true, "60s", "", "", 10240, 0, false, none, none, []⟩
      ⟨80, false, false, true, "60s", "", "", 10240, 0, false, none, none, []⟩ rfl).2 rfl
  simpa using h.1

/-- **C7.** `startServer` increments `startNum` by one on every start
(also when the listen call then fails); a `serveFailed` event with a
stale `startNum` (strictly lower than the runtime's) changes nothing,
while a non-stale one moves the state to `failed` and records the event's
error without touching `startNum`. -/
theorem start_num_monotone_stale_ignored (r : SRuntime) (listenErr : Option String)
    (eStartNum : Nat) (eErr : String) :
    (startServer r listenErr).startNum = r.startNum + 1
    ∧ (eStartNum < r.startNum → handleEventServeFailed r eStartNum eErr = r)
    ∧ (¬ eStartNum < r.startNum →
        (handleEventServeFailed r eStartNum eErr).state = .stateFailed
        ∧ (handleEventServeFailed r eStartNum eErr).err = eErr
        ∧ (handleEventServeFailed r eStartNum eErr).startNum = r.startNum) := by
  refine ⟨?_, ?_, ?_⟩
  · unfold startServer
    cases listenErr <;> rfl
  · intro hstale
    unfold handleEventServeFailed
    rw [if_pos hstale]
  · intro hfresh
    unfold handleEventServeFailed
    rw [if_neg hfresh]
    exact ⟨rfl, rfl, rfl⟩

/-- Witness for `start_num_monotone_stale_ignored`: after two starts, an
event stamped with the first `startNum` is dropped, and one stamped with
the current `startNum` fails the runtime. -/
theorem start_num_monotone_stale_ignored_witness :
    (handleEventServeFailed ⟨2, .stateRunning, ""⟩ 1 "boom" = ⟨2, .stateRunning, ""⟩)
    ∧ ((handleEventServeFailed ⟨2, .stateRunning, ""⟩ 2 "boom").state = .stateFailed
        ∧ (handleEventServeFailed ⟨2, .stateRunning, ""⟩ 2 "boom").err = "boom") := by
  have h := start_num_monotone_stale_ignored ⟨2, .stateRunning, ""⟩ none 1 "boom"
  have h2 := start_num_monotone_stale_ignored ⟨2, .stateRunning, ""⟩ none 2 "boom"
  exact ⟨h.2.1 (by decide), (h2.2.2 (by decide)).1, (h2.2.2 (by decide)).2.1⟩

end Easegress.HttpServer

namespace Easegress

/-! ## UDP proxy session — `pkg/object/udpproxy/session.go` and
`runtime.getSession` (src/unnamed/part_006)

Durations are embedded as nanosecond counts, matching Go's
`time.Duration`.  `runtime.getSession` converts the spec's millisecond
integers with `time.Duration(v) * time.Millisecond` — but passes the two
results in swapped positions into `newSession(downstreamAddr,
upstreamAddr, upstreamConn, downstreamIdleTimeout, upstreamIdleTimeout)`;
and `session.Write` multiplies the already-converted duration by
`time.Millisecond` once more. -/

namespace Udp

/-- `time.Millisecond` and `time.Second` in nanoseconds. -/
def millisecond : Nat := 1000000

def second : Nat := 1000000000

/-- The timeout fields of `session` (session.go), in nanoseconds. -/
structure USession where
  downstreamIdleTimeout : Nat
  upstreamIdleTimeout : Nat
  deriving DecidableEq, Repr

/-- The capacity of the session's `writeBuf` channel
(`make(chan *iobufferpool.Packet, 512)`). -/
def writeBufCapacity : Nat := 512

/-- The `newSession(...)` call inside `runtime.getSession` (part_006):
the arguments are
`time.Duration(spec.UpstreamIdleTimeout) * time.Millisecond` followed by
`time.Duration(spec.DownstreamIdleTimeout) * time.Millisecond`, which land
in the constructor's `downstreamIdleTimeout` and `upstreamIdleTimeout`
parameters respectively. -/
def getSessionTimeouts (specUpstreamIdleTimeoutMs specDownstreamIdleTimeoutMs : Nat) :
    USession :=
  { downstreamIdleTimeout := specUpstreamIdleTimeoutMs * millisecond,
    upstreamIdleTimeout := specDownstreamIdleTimeoutMs * millisecond }

/-- The timer duration of `session.Write` when the channel is full:
`timerpool.Get(s.upstreamIdleTimeout * time.Millisecond)` when the field
is non-zero, else `timerpool.Get(60 * time.Second)`.  Note the source
multiplies the `time.Duration`-valued field by `time.Millisecond` again. -/
def writeWaitNanos (s : USession) : Nat :=
  if s.upstreamIdleTimeout ≠ 0 then s.upstreamIdleTimeout * millisecond
  else 60 * second

/-- **C8 (code bug).** With `upstreamIdleTimeout: 60000` ms and
`downstreamIdleTimeout: 100` ms configured, a blocked `session.Write`
waits `10^14` ns (about 27.8 hours), not the configured 60 s upstream
idle timeout: `getSession` passes the two timeouts into `newSession` in
swapped positions, and `Write` scales the already-converted duration by
`time.Millisecond` a second time.  The claim (and spec §4.6) describe the
evident intent; the channel capacity of 512 is as claimed. -/
theorem udp_write_timeout_code_bug :
    writeWaitNanos (getSessionTimeouts 60000 100) = 100000000000000
    ∧ writeWaitNanos (getSessionTimeouts 60000 100) ≠ 60000 * millisecond
    ∧ (getSessionTimeouts 60000 100).upstreamIdleTimeout ≠ 60000 * millisecond
    ∧ writeBufCapacity = 512 := by
  refine ⟨rfl, by decide, by decide, rfl⟩

end Udp

end Easegress

namespace Easegress

/-! ## HTTP statistics — `pkg/util/httpstat` (concatenated into
src/pkg/object/udpproxy/session.go)

`HTTPStat.Stat` accumulates uint64 latency aggregates.  uint64 arithmetic
is embedded as `Nat` reduced mod 2^64; the Go conversion
`uint64(m.Duration.Milliseconds())` is `Int` truncated division by 10^6
followed by reduction mod 2^64 (negative durations reinterpret as huge
uint64 values).  The EWMA rates, duration sampler and code counter are
external libraries and are not part of the claims. -/

namespace Httpstat

/-- 2^64, the uint64 modulus. -/
def u64 : Nat := 2 ^ 64

/-- The latency/size aggregate fields of `HTTPStat`. -/
structure HTTPStat where
  count : Nat
  errCount : Nat
  total : Nat
  statMin : Nat
  mean : Nat
  statMax : Nat
  reqSize : Nat
  respSize : Nat
  deriving DecidableEq, Repr

/-- `Metric` from httpstat: the status code and the `time.Duration`
(int64 nanoseconds), plus the two sizes. -/
structure Metric where
  statusCode : Int
  durationNs : Int
  reqSize : Nat
  respSize : Nat
  deriving DecidableEq, Repr

/-- `Metric.isErr`: status code at least 400. -/
def isErr (m : Metric) : Bool := m.statusCode ≥ 400

/-- Go's `Duration.Milliseconds()`: int64 division by 10^6, truncated
toward zero. -/
def goMilliseconds (d : Int) : Int := Int.tdiv d 1000000

/-- Go's `uint64(x)` on an int64: reinterpretation, i.e. reduction
mod 2^64. -/
def toUint64 (i : Int) : Nat := (i % (2 ^ 64 : Int)).toNat

/-- `New()`: zero-valued aggregates. -/
def newHTTPStat : HTTPStat :=
  { count := 0, errCount := 0, total := 0, statMin := 0, mean := 0, statMax := 0,
    reqSize := 0, respSize := 0 }

/-- `HTTPStat.Stat` from httpstat (aggregate fields only): increments
`count`, accumulates `total`, and on the first metric seeds min, mean and
max with the duration, afterwards keeps the running min/max and recomputes
`mean = total / count`. -/
def stat (hs : HTTPStat) (m : Metric) : HTTPStat :=
  let count := (hs.count + 1) % u64
  let errCount := if isErr m then (hs.errCount + 1) % u64 else hs.errCount
  let duration := toUint64 (goMilliseconds m.durationNs)
  let total := (hs.total + duration) % u64
  let reqSize := (hs.reqSize + m.reqSize) % u64
  let respSize := (hs.respSize + m.respSize) % u64
  if count = 1 then
    { count := count, errCount := errCount, total := total,
      statMin := duration, mean := duration, statMax := duration,
      reqSize := reqSize, respSize := respSize }
  else
    { count := count, errCount := errCount, total := total,
      statMin := if duration < hs.statMin then duration else hs.statMin,
      statMax := if duration > hs.statMax then duration else hs.statMax,
      mean := total / count,
      reqSize := reqSize, respSize := respSize }

/-- A sequence of `Stat` calls starting from `New()`. -/
def statRun (ms : List Metric) : HTTPStat := ms.foldl stat newHTTPStat

/-- The uint64 millisecond values the durations record. -/
def recorded (ms : List Metric) : List Nat :=
  ms.map (fun m => toUint64 (goMilliseconds m.durationNs))

/-- A metric with a negative one-millisecond duration: its recorded
uint64 value is 2^64 - 1. -/
def cexMetric : Metric :=
  { statusCode := 200, durationNs := -1000000, reqSize := 0, respSize := 0 }

end Httpstat

end Easegress

namespace Easegress.Httpstat

/-- **C10 counterexample.** Two metrics whose durations record as
2^64 - 1 (negative one-millisecond durations reinterpreted by the
`uint64(...)` cast) overflow the uint64 `total`: after the two calls
`total` is 2^64 - 2 while the recorded durations sum to 2^65 - 2, `mean`
is 2^63 - 1, and `min ≤ mean` fails. -/
theorem httpstat_aggregates_counterexample :
    (statRun [cexMetric, cexMetric]).total ≠ (recorded [cexMetric, cexMetric]).sum
    ∧ ¬ (statRun [cexMetric, cexMetric]).statMin ≤ (statRun [cexMetric, cexMetric]).mean := by
  refine ⟨by decide, by decide⟩

theorem statRun_append_one (l : List Metric) (m : Metric) :
    statRun (l ++ [m]) = stat (statRun l) m := by
  unfold statRun
  rw [List.foldl_append]
  rfl

theorem statRun_core (ms : List Metric) (hne : ms ≠ [])
    (hsum : (recorded ms).sum < u64) (hlen : ms.length < u64) :
    (statRun ms).count = ms.length
    ∧ (statRun ms).total = (recorded ms).sum
    ∧ (statRun ms).mean = (recorded ms).sum / ms.length
    ∧ (statRun ms).statMin ∈ recorded ms
    ∧ (∀ x ∈ recorded ms, (statRun ms).statMin ≤ x)
    ∧ (statRun ms).statMax ∈ recorded ms
    ∧ (∀ x ∈ recorded ms, x ≤ (statRun ms).statMax) := by
  induction ms using List.reverseRecOn with
  | nil => exact absurd rfl hne
  | append_singleton l m ih =>
    rw [statRun_append_one]
    by_cases hl : l = []
    · subst hl
      have hd : toUint64 (goMilliseconds m.durationNs) < u64 := by
        simpa [recorded] using hsum
      show _ ∧ _
      rw [stat]
      simp only [statRun, List.foldl_nil, newHTTPStat]
      have hc1 : (0 + 1) % u64 = 1 := by decide
      simp only [hc1, if_pos rfl]
      have htot : (0 + toUint64 (goMilliseconds m.durationNs)) % u64
          = toUint64 (goMilliseconds m.durationNs) := by
        rw [Nat.zero_add]
        exact Nat.mod_eq_of_lt hd
      refine ⟨by simp, ?_, ?_, ?_, ?_, ?_, ?_⟩ <;>
        simp [recorded, htot, Nat.mod_eq_of_lt hd]
    · have hrec : recorded (l ++ [m])
          = recorded l ++ [toUint64 (goMilliseconds m.durationNs)] := by
        simp [recorded]
      have hsuml : (recorded l).sum < u64 := by
        rw [hrec] at hsum
        simp only [List.sum_append, List.sum_cons, List.sum_nil] at hsum
        omega
      have hlenl : l.length < u64 := by
        simp only [List.length_append, List.length_singleton] at hlen
        omega
      obtain ⟨ihc, iht, ihm, ihminmem, ihminle, ihmaxmem, ihmaxle⟩ := ih hl hsuml hlenl
      have hlpos : 0 < l.length := List.length_pos.mpr hl
      have hcount : ((statRun l).count + 1) % u64 = l.length + 1 := by
        rw [ihc]
        exact Nat.mod_eq_of_lt (by simpa using hlen)
      have hcne1 : l.length + 1 ≠ 1 := by omega
      have hdur : (recorded l).sum + toUint64 (goMilliseconds m.durationNs) < u64 := by
        rw [hrec] at hsum
        simpa using hsum
      have htot : ((statRun l).total + toUint64 (goMilliseconds m.durationNs)) % u64
          = (recorded l).sum + toUint64 (goMilliseconds m.durationNs) := by
        rw [iht]
        exact Nat.mod_eq_of_lt hdur
      rw [stat]
      simp only [hcount, htot, if_neg hcne1]
      refine ⟨by simp, ?_, ?_, ?_, ?_, ?_, ?_⟩
      · rw [hrec]
        simp
      · rw [hrec]
        simp
      · rw [hrec]
        by_cases hlt : toUint64 (goMilliseconds m.durationNs) < (statRun l).statMin
        · simp [hlt]
        · simp only [hlt, if_neg, if_false]
          exact List.mem_append.mpr (Or.inl ihminmem)
      · intro x hx
        rw [hrec] at hx
        rcases List.mem_append.mp hx with hx | hx
        · by_cases hlt : toUint64 (goMilliseconds m.durationNs) < (statRun l).statMin
          · simp only [hlt, if_pos]
            exact le_of_lt (lt_of_lt_of_le hlt (ihminle x hx))
          · simp only [hlt, if_neg, if_false]
            exact ihminle x hx
        · rcases List.mem_singleton.mp hx with rfl
          by_cases hlt : toUint64 (goMilliseconds m.durationNs) < (statRun l).statMin
          · simp [hlt]
          · simp only [hlt, if_neg, if_false]
            omega
      · rw [hrec]
        by_cases hgt : toUint64 (goMilliseconds m.durationNs) > (statRun l).statMax
        · simp [hgt]
        · simp only [hgt, if_neg, if_false]
          exact List.mem_append.mpr (Or.inl ihmaxmem)
      · intro x hx
        rw [hrec] at hx
        rcases List.mem_append.mp hx with hx | hx
        · by_cases hgt : toUint64 (goMilliseconds m.durationNs) > (statRun l).statMax
          · simp only [hgt, if_pos]
            exact le_of_lt (lt_of_le_of_lt (ihmaxle x hx) hgt)
          · simp only [hgt, if_neg, if_false]
            exact ihmaxle x hx
        · rcases List.mem_singleton.mp hx with rfl
          by_cases hgt : toUint64 (goMilliseconds m.durationNs) > (statRun l).statMax
          · simp [hgt]
          · simp only [hgt, if_neg, if_false]
            omega
end Easegress.Httpstat

namespace Easegress.Httpstat

/-- **C10 (amended).** For any non-empty sequence of `Stat` calls whose
recorded uint64 millisecond values sum to less than 2^64 (and with fewer
than 2^64 calls, so no counter wraps — always true for durations produced
by nonnegative wall-clock measurements of realistic workloads): `total`
is the sum of the recorded durations, `mean` is `total / count` in
integer division, `min`/`max` are the least/greatest recorded duration,
and hence `min ≤ mean ≤ max`. -/
theorem httpstat_aggregates (ms : List Metric) (hne : ms ≠ [])
    (hsum : (recorded ms).sum < u64) (hlen : ms.length < u64) :
    (statRun ms).count = ms.length
    ∧ (statRun ms).total = (recorded ms).sum
    ∧ (statRun ms).mean = (statRun ms).total / (statRun ms).count
    ∧ (statRun ms).statMin ∈ recorded ms
    ∧ (∀ x ∈ recorded ms, (statRun ms).statMin ≤ x)
    ∧ (statRun ms).statMax ∈ recorded ms
    ∧ (∀ x ∈ recorded ms, x ≤ (statRun ms).statMax)
    ∧ (statRun ms).statMin ≤ (statRun ms).mean
    ∧ (statRun ms).mean ≤ (statRun ms).statMax := by
  obtain ⟨hc, ht, hm, hminmem, hminle, hmaxmem, hmaxle⟩ := statRun_core ms hne hsum hlen
  have hlpos : 0 < ms.length := List.length_pos.mpr hne
  have hreclen : (recorded ms).length = ms.length := by simp [recorded]
  have hlow : ms.length * (statRun ms).statMin ≤ (recorded ms).sum := by
    have := List.card_nsmul_le_sum (recorded ms) ((statRun ms).statMin) hminle
    simpa [hreclen, smul_eq_mul] using this
  have hhigh : (recorded ms).sum ≤ ms.length * (statRun ms).statMax := by
    have := List.sum_le_card_nsmul (recorded ms) ((statRun ms).statMax) hmaxle
    simpa [hreclen, smul_eq_mul] using this
  refine ⟨hc, ht, by rw [hm, ht, hc], hminmem, hminle, hmaxmem, hmaxle, ?_, ?_⟩
  · rw [hm]
    rw [Nat.le_div_iff_mul_le hlpos]
    calc (statRun ms).statMin * ms.length
        = ms.length * (statRun ms).statMin := Nat.mul_comm _ _
      _ ≤ (recorded ms).sum := hlow
  · rw [hm]
    calc (recorded ms).sum / ms.length
        ≤ ms.length * (statRun ms).statMax / ms.length := Nat.div_le_div_right hhigh
      _ = (statRun ms).statMax := Nat.mul_div_cancel_left _ hlpos

/-- Witness for `httpstat_aggregates`: metrics of 1 ms and 3 ms give
count 2, total 4, mean 2, min 1, max 3. -/
theorem httpstat_aggregates_witness :
    (statRun [⟨200, 1000000, 0, 0⟩, ⟨200, 3000000, 0, 0⟩]).total = 4
    ∧ (statRun [⟨200, 1000000, 0, 0⟩, ⟨200, 3000000, 0, 0⟩]).mean = 2
    ∧ (statRun [⟨200, 1000000, 0, 0⟩, ⟨200, 3000000, 0, 0⟩]).statMin
        ≤ (statRun [⟨200, 1000000, 0, 0⟩, ⟨200, 3000000, 0, 0⟩]).mean := by
  have h := httpstat_aggregates [⟨200, 1000000, 0, 0⟩, ⟨200, 3000000, 0, 0⟩]
    (by decide) (by decide) (by decide)
  exact ⟨by decide, by decide, h.2.2.2.2.2.2.2.1⟩

end Easegress.Httpstat

namespace Easegress

/-! ## HeaderToJSON filter — `pkg/filter/headertojson/headertojson.go`

`init` maps canonicalised header names to JSON field names — dropping the
`Type` declared in the spec — and `handle` copies each present header
VALUE (a string) into the body map.  JSON values are embedded as `JVal`;
the body decode result as `BodyContent` (object / array / empty /
undecodable). -/

namespace Headertojson

/-- Characters Go's `textproto` accepts in a header field name. -/
def isValidHeaderFieldChar (c : Char) : Bool :=
  (('a' ≤ c && c ≤ 'z') || ('A' ≤ c && c ≤ 'Z') || ('0' ≤ c && c ≤ '9'))
  || c ∈ ['!', '#', '$', '%', '&', '*', '+', '-', '.', '^', '_', '|', '~',
          Char.ofNat 39, Char.ofNat 96]

/-- The case-folding loop of `textproto.CanonicalMIMEHeaderKey`: uppercase
at the start and after each hyphen, lowercase elsewhere. -/
def canonicalizeChars (chars : List Char) (upper : Bool) : List Char :=
  match chars with
  | [] => []
  | c :: rest =>
    let c2 :=
      if upper && ('a' ≤ c && c ≤ 'z') then Char.ofNat (c.toNat - 32)
      else if !upper && ('A' ≤ c && c ≤ 'Z') then Char.ofNat (c.toNat + 32)
      else c
    c2 :: canonicalizeChars rest (c2 = '-')

/-- `http.CanonicalHeaderKey`: canonicalise valid keys, return invalid
ones unchanged. -/
def canonicalHeaderKey (s : String) : String :=
  if s.toList.all isValidHeaderFieldChar then ⟨canonicalizeChars s.toList true⟩ else s

/-- A JSON primitive value as it lands in the merged body. -/
inductive JVal where
  | jstr (s : String)
  | jnum (n : Int)
  | jbool (b : Bool)
  | jnull
  deriving DecidableEq, Repr

/-- Go map read on a JSON object. -/
def jGet (l : List (String × JVal)) (k : String) : Option JVal :=
  (l.find? (fun p => p.1 = k)).map (·.2)

/-- Go map write on a JSON object (`bodyMap[k] = v`). -/
def jSet (l : List (String × JVal)) (k : String) (v : JVal) : List (String × JVal) :=
  (l.filter (fun p => ¬ p.1 = k)) ++ [(k, v)]

/-- The request body as the goccy/go-json decode attempts classify it:
empty, a JSON object, an array of JSON objects, or neither. -/
inductive BodyContent where
  | empty
  | objBody (m : List (String × JVal))
  | arrBody (l : List (List (String × JVal)))
  | invalid
  deriving Repr

/-- The declared JSON types of the `HeaderMap` spec (`jsonInt`,
`jsonFloat`, `jsonString`, `jsonBool`, `jsonNull`).  Modelled from the
spec and the package's own test: the spec.go file declaring them is not
part of the sources; `HeaderToJSON.init` ignores them entirely. -/
inductive JType where
  | jsonInt
  | jsonFloat
  | jsonString
  | jsonBool
  | jsonNull
  deriving DecidableEq, Repr

/-- One `HeaderMap` spec entry (`Header`, `JSON`, `Type`). -/
structure HeaderMap where
  header : String
  json : String
  jtype : JType
  deriving DecidableEq, Repr

/-- The HeaderToJSON `Spec`. -/
structure H2JSpec where
  headerMap : List HeaderMap
  deriving DecidableEq, Repr

/-- The initialised filter: `init()` builds
`headerMap[CanonicalHeaderKey(header)] = json` — the declared `Type` is
dropped. -/
structure HeaderToJSON where
  headerMap : List (String × String)
  deriving DecidableEq, Repr

/-- `HeaderToJSON.init` (via `Init`). -/
def initFilter (spec : H2JSpec) : HeaderToJSON :=
  { headerMap := spec.headerMap.map (fun hm => (canonicalHeaderKey hm.header, hm.json)) }

/-- Request headers under `http.Header` semantics: `Add` canonicalises
the key, `Get` returns the first value for the canonical key or "". -/
def headerAdd (h : List (String × String)) (k v : String) : List (String × String) :=
  h ++ [(canonicalHeaderKey k, v)]

def headerGet (h : List (String × String)) (k : String) : String :=
  match h.find? (fun p => p.1 = canonicalHeaderKey k) with
  | some p => p.2
  | none => ""

/-- The merge loops of `handleBodyMap`/`handleBodyArray`:
`bodyMap[k] = v` for each mapped header field. -/
def mergeInto (bodyMap : List (String × JVal)) (headerMap : List (String × JVal)) :
    List (String × JVal) :=
  headerMap.foldl (fun acc p => jSet acc p.1 p.2) bodyMap

/-- `HeaderToJSON.handle`: collect the present mapped headers as STRING
values (`headerMap[json] = value`), return "" untouched when none is
present, otherwise merge them into the decoded body (object, each element
of an array, or a fresh map for an empty body); an undecodable body yields
`jsonEncodeDecodeErr`.  Returns the result string and the rewritten body. -/
def handle (h : HeaderToJSON) (req : List (String × String)) (body : BodyContent) :
    String × Option BodyContent :=
  let headerMap := h.headerMap.foldl
    (fun acc p =>
      let value := headerGet req p.1
      if value ≠ "" then jSet acc p.2 (JVal.jstr value) else acc) []
  if headerMap = [] then ("", none)
  else
    match body with
    | .empty => ("", some (.objBody (mergeInto [] headerMap)))
    | .objBody m => ("", some (.objBody (mergeInto m headerMap)))
    | .arrBody l => ("", some (.arrBody (l.map (fun m => mergeInto m headerMap))))
    | .invalid => ("jsonEncodeDecodeErr", none)

/-- The spec of the C9 scenario (and of the package's own test
`TestHandleHTTP`). -/
def demoSpec : H2JSpec :=
  { headerMap :=
      [⟨"x-int", "int-value", .jsonInt⟩,
       ⟨"x-float", "float-value", .jsonFloat⟩,
       ⟨"x-string", "string-value", .jsonString⟩,
       ⟨"x-bool", "bool-value", .jsonBool⟩,
       ⟨"x-null", "null-value", .jsonNull⟩] }

/-- The request headers of the C9 scenario, added in order. -/
def demoHeaders : List (String × String) :=
  headerAdd (headerAdd (headerAdd (headerAdd (headerAdd [] "x-int" "123")
    "x-float" "123.0") "x-string" "string") "x-bool" "true") "x-null" "null"

/-- The request body `{"topic":"log","id":"abc123"}`. -/
def demoBody : BodyContent :=
  .objBody [("topic", .jstr "log"), ("id", .jstr "abc123")]

/-- The merged body object `handle` produces for the scenario. -/
def demoMerged : List (String × JVal) :=
  match (handle (initFilter demoSpec) demoHeaders demoBody).2 with
  | some (.objBody m) => m
  | _ => []

end Headertojson

end Easegress

namespace Easegress.Headertojson

/-- **C9 (code bug).** On the claimed request (`x-int:123, x-float:123.0,
x-string:string, x-bool:true, x-null:null`, body
`{"topic":"log","id":"abc123"}`) `handle` returns result `""` and keeps
the original body fields, but merges every header as a JSON STRING —
`int-value:"123"`, `float-value:"123.0"`, `bool-value:"true"`,
`null-value:"null"` — not with the declared types expected by the claim
and asserted by the package's own test (number 123, number 123, boolean
true, null): `init` discards the spec's `Type` and `handle` copies the
raw header value. -/
theorem headertojson_string_values_code_bug :
    (handle (initFilter demoSpec) demoHeaders demoBody).1 = ""
    ∧ jGet demoMerged "topic" = some (.jstr "log")
    ∧ jGet demoMerged "id" = some (.jstr "abc123")
    ∧ jGet demoMerged "int-value" = some (.jstr "123")
    ∧ jGet demoMerged "int-value" ≠ some (.jnum 123)
    ∧ jGet demoMerged "float-value" = some (.jstr "123.0")
    ∧ jGet demoMerged "float-value" ≠ some (.jnum 123)
    ∧ jGet demoMerged "string-value" = some (.jstr "string")
    ∧ jGet demoMerged "bool-value" = some (.jstr "true")
    ∧ jGet demoMerged "bool-value" ≠ some (.jbool true)
    ∧ jGet demoMerged "null-value" = some (.jstr "null")
    ∧ jGet demoMerged "null-value" ≠ some .jnull := by
  refine ⟨rfl, rfl, rfl, rfl, by decide, rfl, by decide, rfl, rfl, by decide, rfl, by decide⟩

end Easegress.Headertojson
